import Mathlib

/-!
Verification of `archery`'s type-erased `Arc` pointer kind
(`src/shared_pointer/kind/arc/mod.rs`).

The embedding models the runtime state of `alloc::sync::Arc` allocations as a
heap: a finite association list from addresses to allocations, where an
allocation carries the payload value and the strong count.  A typed `Arc α`
handle is just the address of its allocation; the type-erased `ArcK` handle
stores the same address (the Rust code transmutes `Arc<T>` to `Arc<()>`, which
leaves the one-word representation unchanged).  Every `ArcK` operation below
mirrors, line for line, the corresponding method of the source file, which
forwards to the `Arc` primitive after reinterpretation.  Weak counts are not
modelled: the source exposes no weak-pointer operation.
-/

set_option autoImplicit false

namespace Archery

/-- A raw machine address. -/
abbrev Addr := Nat

/-- One reference-counted allocation: the payload and its strong count. -/
structure Alloc (α : Type) where
  value : α
  strong : Nat
  deriving DecidableEq, Repr

/-- The heap of live `Arc` allocations.  `cells` maps addresses to
allocations; `next` is the next fresh address the allocator hands out. -/
structure Heap (α : Type) where
  cells : List (Addr × Alloc α)
  next : Addr
  deriving DecidableEq, Repr

variable {α : Type}

/-- The empty heap. -/
def Heap.empty {α : Type} : Heap α := ⟨[], 0⟩

/-- First association of address `a` in a cell list. -/
def findCell (a : Addr) : List (Addr × Alloc α) → Option (Alloc α)
  | [] => none
  | p :: l => if p.1 = a then some p.2 else findCell a l

/-- Look up the allocation at address `a`. -/
def Heap.find (h : Heap α) (a : Addr) : Option (Alloc α) :=
  findCell a h.cells

/-- Apply `f` to the strong count of the allocation at address `a`. -/
def Heap.modifyStrong (h : Heap α) (a : Addr) (f : Nat → Nat) : Heap α :=
  ⟨h.cells.map (fun p => if p.1 = a then (p.1, ⟨p.2.value, f p.2.strong⟩) else p), h.next⟩

/-- Deallocate the allocation at address `a`. -/
def Heap.remove (h : Heap α) (a : Addr) : Heap α :=
  ⟨h.cells.filter (fun p => p.1 ≠ a), h.next⟩

/-- A typed `alloc::sync::Arc<T>`: one word, the address of its allocation. -/
structure Arc (α : Type) where
  addr : Addr
  deriving DecidableEq, Repr

/-- `Arc::new(v)`: allocate a fresh reference-counted block holding `v`,
strong count 1. -/
def Arc.new (h : Heap α) (v : α) : Arc α × Heap α :=
  (⟨h.next⟩, ⟨(h.next, ⟨v, 1⟩) :: h.cells, h.next + 1⟩)

/-- `Arc::as_ptr`: the raw address of the payload. -/
def Arc.as_ptr (p : Arc α) : Addr :=
  p.addr

/-- `Arc::strong_count`: read the strong count of the allocation.  (The
`none` branch is unreachable for a live handle.) -/
def Arc.strong_count (h : Heap α) (p : Arc α) : Nat :=
  match h.find p.addr with
  | some c => c.strong
  | none => 0

/-- `<Arc as Deref>::deref`: read the payload.  `none` models the undefined
behaviour of dereferencing a dangling handle. -/
def Arc.deref (h : Heap α) (p : Arc α) : Option α :=
  (h.find p.addr).map Alloc.value

/-- `Arc::clone`: increment the strong count, return a handle aliasing the
same allocation. -/
def Arc.clone (h : Heap α) (p : Arc α) : Arc α × Heap α :=
  (⟨p.addr⟩, h.modifyStrong p.addr (· + 1))

/-- `Arc::try_unwrap`: if the strong count is 1, consume the handle,
deallocate and return the payload by value; otherwise hand the handle back
with the sharing state untouched. -/
def Arc.try_unwrap (h : Heap α) (p : Arc α) : (α ⊕ Arc α) × Heap α :=
  match h.find p.addr with
  | some c =>
      if c.strong = 1 then (Sum.inl c.value, h.remove p.addr)
      else (Sum.inr p, h)
  | none => (Sum.inr p, h)

/-- `Arc::get_mut`: a unique mutable borrow of the payload when the strong
count is 1, otherwise `none`; the heap (count and payload) is untouched
either way.  The borrow is modelled by the value it initially refers to. -/
def Arc.get_mut (h : Heap α) (p : Arc α) : Option α × Heap α :=
  (match h.find p.addr with
   | some c => if c.strong = 1 then some c.value else none
   | none => none,
   h)

/-- `Arc::make_mut`: when uniquely owned, borrow in place; when shared,
clone the payload into a fresh allocation with strong count 1, repoint the
handle at it and release one reference to the old allocation
(copy-on-write).  Returns the updated handle (Rust mutates `self` in
place). -/
def Arc.make_mut (h : Heap α) (p : Arc α) : Arc α × Heap α :=
  match h.find p.addr with
  | some c =>
      if c.strong = 1 then (p, h)
      else
        let h1 := h.modifyStrong p.addr (· - 1)
        (⟨h1.next⟩, ⟨(h1.next, ⟨c.value, 1⟩) :: h1.cells, h1.next + 1⟩)
  | none => (p, h)

/-- `ArcK`: the type-erased pointer kind.  The source stores
`ManuallyDrop<Arc<()>>`; its one-word representation is the allocation
address, which is what `inner` holds here. -/
structure ArcK where
  inner : Addr
  deriving DecidableEq, Repr

/-- `ArcK::new_from_inner`: erase `Arc<T>` to the untyped representation
(`mem::transmute`, identity on the address). -/
def ArcK.new_from_inner (a : Arc α) : ArcK :=
  ⟨a.addr⟩

/-- `ArcK::take_inner::<T>`: reinterpret the untyped representation as
`Arc<T>` by value (`mem::transmute`, identity on the address). -/
def ArcK.take_inner (α : Type) (k : ArcK) : Arc α :=
  ⟨k.inner⟩

/-- `ArcK::as_inner_ref::<T>`: view the untyped representation as
`&Arc<T>` (pointer cast, identity on the address). -/
def ArcK.as_inner_ref (α : Type) (k : ArcK) : Arc α :=
  ⟨k.inner⟩

/-- `ArcK::as_inner_mut::<T>`: view the untyped representation as
`&mut Arc<T>` (pointer cast, identity on the address). -/
def ArcK.as_inner_mut (α : Type) (k : ArcK) : Arc α :=
  ⟨k.inner⟩

/-- `SharedPointerKind::new for ArcK`: `ArcK::new_from_inner(Arc::new(v))`. -/
def ArcK.new (h : Heap α) (v : α) : ArcK × Heap α :=
  let r := Arc.new h v
  (ArcK.new_from_inner r.1, r.2)

/-- `SharedPointerKind::as_ptr for ArcK`: `Arc::as_ptr(self.as_inner_ref())`. -/
def ArcK.as_ptr (α : Type) (k : ArcK) : Addr :=
  Arc.as_ptr (k.as_inner_ref α)

/-- `SharedPointerKind::deref for ArcK`: `self.as_inner_ref::<T>().as_ref()`. -/
def ArcK.deref (h : Heap α) (k : ArcK) : Option α :=
  Arc.deref h (k.as_inner_ref α)

/-- `SharedPointerKind::try_unwrap for ArcK`:
`Arc::try_unwrap(self.take_inner()).map_err(ArcK::new_from_inner)`. -/
def ArcK.try_unwrap (h : Heap α) (k : ArcK) : (α ⊕ ArcK) × Heap α :=
  let r := Arc.try_unwrap h (k.take_inner α)
  (Sum.map id ArcK.new_from_inner r.1, r.2)

/-- `SharedPointerKind::get_mut for ArcK`: `Arc::get_mut(self.as_inner_mut())`. -/
def ArcK.get_mut (h : Heap α) (k : ArcK) : Option α × Heap α :=
  Arc.get_mut h (k.as_inner_mut α)

/-- `SharedPointerKind::make_mut for ArcK`: `Arc::make_mut(self.as_inner_mut())`;
the updated handle reflects the in-place mutation of `self`. -/
def ArcK.make_mut (h : Heap α) (k : ArcK) : ArcK × Heap α :=
  let r := Arc.make_mut h (k.as_inner_mut α)
  (ArcK.new_from_inner r.1, r.2)

/-- `SharedPointerKind::strong_count for ArcK`:
`Arc::strong_count(self.as_inner_ref::<T>())`. -/
def ArcK.strong_count (h : Heap α) (k : ArcK) : Nat :=
  Arc.strong_count h (k.as_inner_ref α)

/-- `SharedPointerKind::clone for ArcK`:
`ArcK { inner: ManuallyDrop::new(Arc::clone(self.as_inner_ref())) }`. -/
def ArcK.clone (h : Heap α) (k : ArcK) : ArcK × Heap α :=
  let r := Arc.clone h (k.as_inner_ref α)
  (⟨r.1.addr⟩, r.2)

/-- Dereferencing the erased pointer at its static type `Arc<()>` yields the
unit value, whatever payload actually lives at the address (reading a
zero-sized value inspects no memory). -/
def UntypedArc.deref (_ : Addr) : Unit :=
  ()

/-- `impl PartialEq for ArcK`: `self.inner == other.inner`.  `inner` is
`ManuallyDrop<Arc<()>>`; `ManuallyDrop`'s `PartialEq` forwards to the inner
`Arc<()>`, and `impl<T: PartialEq> PartialEq for Arc<T>` in the standard
library compares the dereferenced payloads (`**self == **other`, with a
pointer-equality fast path for `T: Eq`: `Arc::ptr_eq(self, other) || **self == **other`).
Here the static payload type is `()`. -/
def ArcK.eq (x y : ArcK) : Bool :=
  (x.inner == y.inner) || (UntypedArc.deref x.inner == UntypedArc.deref y.inner)

/-- `impl Debug for ArcK`: `f.write_str("ArcK")` — the exact text the
formatter receives. -/
def ArcK.fmt (_ : ArcK) : String :=
  "ArcK"

/-- The `Unexpected` variants of a serde deserialization type error that this
code can produce. -/
inductive Unexpected where
  | unit
  deriving DecidableEq, Repr

/-- The operations of `serde::de::Error` that this code uses: a format's
error type `E` must admit `invalid_type(unexpected, expected)`. -/
structure DeErrorOps (E : Type) where
  invalid_type : Unexpected → String → E

/-- `impl Deserialize for ArcK`: run `<()>::deserialize(deserializer)` (its
outcome is the `unitResult` argument), propagate its error via `?`, and
otherwise fail unconditionally with
`D::Error::invalid_type(Unexpected::Unit, &"RcK should not be deserialized")`. -/
def ArcK.deserialize {E : Type} (ops : DeErrorOps E)
    (unitResult : Except E Unit) : Except E ArcK :=
  match unitResult with
  | .error e => .error e
  | .ok _ => .error (ops.invalid_type Unexpected.unit "RcK should not be deserialized")

/-- The operations of `serde::Serializer` that this code uses: emitting the
unit marker, producing `Result<S::Ok, S::Error>`. -/
structure Serializer (Ok E : Type) where
  serialize_unit : Except E Ok

/-- `impl Serialize for ArcK`: `serializer.serialize_unit()` — the handle
itself is ignored. -/
def ArcK.serialize {Ok E : Type} (_ : ArcK) (s : Serializer Ok E) : Except E Ok :=
  s.serialize_unit

/-! ### Heap lemmas shared by the claim proofs -/

theorem findCell_map_modify (l : List (Addr × Alloc α)) (a : Addr) (f : Nat → Nat) :
    findCell a (l.map (fun p => if p.1 = a then (p.1, ⟨p.2.value, f p.2.strong⟩) else p))
      = (findCell a l).map (fun c => ⟨c.value, f c.strong⟩) := by
  induction l with
  | nil => rfl
  | cons p l ih =>
      by_cases hp : p.1 = a
      · simp [findCell, hp]
      · simp [findCell, hp, ih]

theorem findCell_map_modify_other (l : List (Addr × Alloc α)) (a b : Addr)
    (f : Nat → Nat) (hab : b ≠ a) :
    findCell b (l.map (fun p => if p.1 = a then (p.1, ⟨p.2.value, f p.2.strong⟩) else p))
      = findCell b l := by
  induction l with
  | nil => rfl
  | cons p l ih =>
      by_cases hp : p.1 = a
      · simp [findCell, hp, Ne.symm hab, ih]
      · simp [findCell, hp, ih]

theorem findCell_filter_ne (l : List (Addr × Alloc α)) (a : Addr) :
    findCell a (l.filter (fun p => p.1 ≠ a)) = none := by
  induction l with
  | nil => rfl
  | cons p l ih =>
      by_cases hp : p.1 = a
      · simpa [List.filter, hp] using ih
      · simpa [List.filter, hp, findCell] using ih

theorem Heap.modifyStrong_next (h : Heap α) (a : Addr) (f : Nat → Nat) :
    (h.modifyStrong a f).next = h.next :=
  rfl

theorem Heap.find_modifyStrong_self (h : Heap α) (a : Addr) (f : Nat → Nat) :
    (h.modifyStrong a f).find a = (h.find a).map (fun c => ⟨c.value, f c.strong⟩) :=
  findCell_map_modify h.cells a f

theorem Heap.find_modifyStrong_other (h : Heap α) (a b : Addr) (f : Nat → Nat)
    (hab : b ≠ a) : (h.modifyStrong a f).find b = h.find b :=
  findCell_map_modify_other h.cells a b f hab

theorem Heap.find_remove_self (h : Heap α) (a : Addr) :
    (h.remove a).find a = none :=
  findCell_filter_ne h.cells a

theorem Heap.find_cons_self (cells : List (Addr × Alloc α)) (n : Addr)
    (c : Alloc α) (m : Addr) :
    (Heap.find ⟨(n, c) :: cells, m⟩ n) = some c := by
  simp [Heap.find, findCell]

theorem Heap.find_cons_other (cells : List (Addr × Alloc α)) (n : Addr)
    (c : Alloc α) (m : Addr) (b : Addr) (hb : b ≠ n) :
    (Heap.find ⟨(n, c) :: cells, m⟩ b) = Heap.find ⟨cells, m⟩ b := by
  simp [Heap.find, findCell, Ne.symm hb]

/-! ### Claim theorems -/

/-- C4: for every heap and every value `v`, constructing a handle via
`new(v)` and then dereferencing it yields a value equal to `v`, and the
strong count of the fresh handle is exactly 1. -/
theorem arcK_new_deref_strong_count (h : Heap α) (v : α) :
    ArcK.deref (ArcK.new h v).2 (ArcK.new h v).1 = some v
    ∧ ArcK.strong_count (ArcK.new h v).2 (ArcK.new h v).1 = 1 := by
  constructor
  · simp [ArcK.new, ArcK.new_from_inner, Arc.new, ArcK.deref, Arc.deref,
      ArcK.as_inner_ref, Heap.find, findCell]
  · simp [ArcK.new, ArcK.new_from_inner, Arc.new, ArcK.strong_count,
      Arc.strong_count, ArcK.as_inner_ref, Heap.find, findCell]

/-- C9: erasing a typed `Arc` with `new_from_inner` and un-erasing with
`take_inner` at the same type is the identity: the same pointer comes back,
with the same raw payload address and, on any heap, the same strong
count. -/
theorem arcK_erase_unerase_roundtrip (a : Arc α) (h : Heap α) :
    ArcK.take_inner α (ArcK.new_from_inner a) = a
    ∧ Arc.as_ptr (ArcK.take_inner α (ArcK.new_from_inner a)) = Arc.as_ptr a
    ∧ Arc.strong_count h (ArcK.take_inner α (ArcK.new_from_inner a))
        = Arc.strong_count h a :=
  ⟨rfl, rfl, rfl⟩

/-- C10: Debug formatting of any `ArcK` handle writes exactly the string
"ArcK"; it is the same for every handle, so it reveals nothing about the
payload or the sharing state. -/
theorem arcK_fmt_constant (k k2 : ArcK) :
    ArcK.fmt k = "ArcK" ∧ ArcK.fmt k = ArcK.fmt k2 :=
  ⟨rfl, rfl⟩

/-- C8: serializing any `ArcK` handle emits exactly the serializer's unit
marker, independently of the handle (hence of payload type, payload value
and strong count, none of which the implementation even looks at). -/
theorem arcK_serialize_unit {Ok E : Type} (s : Serializer Ok E) (k k2 : ArcK) :
    ArcK.serialize k s = s.serialize_unit
    ∧ ArcK.serialize k s = ArcK.serialize k2 s :=
  ⟨rfl, rfl⟩

/-- C7: deserializing the `ArcK` kind marker never returns a handle, for
any outcome of the underlying unit parse; and when the unit marker itself
parses, the failure is exactly the documented
`invalid_type(Unexpected::Unit, "RcK should not be deserialized")` error. -/
theorem arcK_deserialize_always_fails {E : Type} (ops : DeErrorOps E)
    (r : Except E Unit) :
    (∀ k : ArcK, ArcK.deserialize ops r ≠ Except.ok k)
    ∧ ArcK.deserialize ops (Except.ok ()) =
        Except.error (ops.invalid_type Unexpected.unit "RcK should not be deserialized") := by
  refine ⟨fun k => ?_, rfl⟩
  cases r <;> simp [ArcK.deserialize]

/-- A one-allocation heap whose single handle is uniquely owned. -/
def heapUnique : Heap Nat := ⟨[(0, ⟨5, 1⟩)], 1⟩

/-- A one-allocation heap whose allocation is shared (strong count 2). -/
def heapShared : Heap Nat := ⟨[(0, ⟨5, 2⟩)], 1⟩

/-- The erased handle to address 0 of the two heaps above. -/
def handle0 : ArcK := ⟨0⟩

/-- C3: cloning a live handle yields a handle with the same raw address,
dereferencing to the same value over the new heap, and the strong count
observed after the call is the count before the call plus 1 (through either
handle). -/
theorem arcK_clone_spec (h : Heap α) (k : ArcK) (c : Alloc α)
    (hlive : h.find k.inner = some c) :
    (ArcK.clone h k).1.inner = k.inner
    ∧ ArcK.as_ptr α (ArcK.clone h k).1 = ArcK.as_ptr α k
    ∧ ArcK.strong_count (ArcK.clone h k).2 (ArcK.clone h k).1
        = ArcK.strong_count h k + 1
    ∧ ArcK.strong_count (ArcK.clone h k).2 k = ArcK.strong_count h k + 1
    ∧ ArcK.deref (ArcK.clone h k).2 (ArcK.clone h k).1
        = ArcK.deref (ArcK.clone h k).2 k := by
  have h2 : (h.modifyStrong k.inner (· + 1)).find k.inner
      = some ⟨c.value, c.strong + 1⟩ := by
    rw [Heap.find_modifyStrong_self, hlive]
    rfl
  refine ⟨rfl, rfl, ?_, ?_, rfl⟩ <;>
    simp [ArcK.clone, Arc.clone, ArcK.strong_count, Arc.strong_count,
      ArcK.as_inner_ref, h2, hlive]

theorem arcK_clone_spec_witness :
    Heap.find heapUnique handle0.inner = some ⟨5, 1⟩
    ∧ ((ArcK.clone heapUnique handle0).1.inner = handle0.inner
    ∧ ArcK.as_ptr Nat (ArcK.clone heapUnique handle0).1 = ArcK.as_ptr Nat handle0
    ∧ ArcK.strong_count (ArcK.clone heapUnique handle0).2 (ArcK.clone heapUnique handle0).1
        = ArcK.strong_count heapUnique handle0 + 1
    ∧ ArcK.strong_count (ArcK.clone heapUnique handle0).2 handle0
        = ArcK.strong_count heapUnique handle0 + 1
    ∧ ArcK.deref (ArcK.clone heapUnique handle0).2 (ArcK.clone heapUnique handle0).1
        = ArcK.deref (ArcK.clone heapUnique handle0).2 handle0) :=
  ⟨by decide, arcK_clone_spec heapUnique handle0 ⟨5, 1⟩ (by decide)⟩

/-- C6: on a live handle, `get_mut` returns a borrow exactly when the
strong count is 1 (then it refers to the payload); the heap — payload and
strong count alike — is unchanged either way, and no copy is made. -/
theorem arcK_get_mut_spec (h : Heap α) (k : ArcK) (c : Alloc α)
    (hlive : h.find k.inner = some c) :
    ((ArcK.get_mut h k).1.isSome ↔ c.strong = 1)
    ∧ (c.strong = 1 → (ArcK.get_mut h k).1 = some c.value)
    ∧ (ArcK.get_mut h k).2 = h := by
  refine ⟨?_, ?_, rfl⟩ <;> by_cases hs : c.strong = 1 <;>
    simp [ArcK.get_mut, Arc.get_mut, ArcK.as_inner_mut, hlive, hs]

theorem arcK_get_mut_spec_witness :
    Heap.find heapShared handle0.inner = some ⟨5, 2⟩
    ∧ (((ArcK.get_mut heapShared handle0).1.isSome ↔ (2 : Nat) = 1)
    ∧ ((2 : Nat) = 1 → (ArcK.get_mut heapShared handle0).1 = some 5)
    ∧ (ArcK.get_mut heapShared handle0).2 = heapShared) :=
  ⟨by decide, arcK_get_mut_spec heapShared handle0 ⟨5, 2⟩ (by decide)⟩

/-- C1: on a live handle, `try_unwrap` succeeds exactly when the strong
count is 1; on success it returns the very value the handle dereferences to
and the allocation is gone from the resulting heap; on failure it returns
the identical handle (same raw address) and the heap — hence the strong
count — is unchanged. -/
theorem arcK_try_unwrap_spec (h : Heap α) (k : ArcK) (c : Alloc α)
    (hlive : h.find k.inner = some c) :
    ((∃ v, (ArcK.try_unwrap h k).1 = Sum.inl v) ↔ c.strong = 1)
    ∧ (c.strong = 1 →
        ArcK.try_unwrap h k = (Sum.inl c.value, h.remove k.inner)
        ∧ ArcK.deref h k = some c.value
        ∧ (ArcK.try_unwrap h k).2.find k.inner = none)
    ∧ (c.strong ≠ 1 → ArcK.try_unwrap h k = (Sum.inr k, h)) := by
  have hd : ArcK.deref h k = some c.value := by
    simp [ArcK.deref, Arc.deref, ArcK.as_inner_ref, hlive]
  by_cases hs : c.strong = 1
  · have he : ArcK.try_unwrap h k = (Sum.inl c.value, h.remove k.inner) := by
      simp [ArcK.try_unwrap, Arc.try_unwrap, ArcK.take_inner, hlive, hs, Sum.map]
    refine ⟨⟨fun _ => hs, fun _ => ⟨c.value, by rw [he]⟩⟩,
      fun _ => ⟨he, hd, ?_⟩, fun hc => absurd hs hc⟩
    rw [he]
    exact Heap.find_remove_self h k.inner
  · have he : ArcK.try_unwrap h k = (Sum.inr k, h) := by
      simp [ArcK.try_unwrap, Arc.try_unwrap, ArcK.take_inner, ArcK.new_from_inner,
        hlive, hs, Sum.map]
    refine ⟨⟨?_, fun hc => absurd hc hs⟩, fun hc => absurd hc hs, fun _ => he⟩
    rintro ⟨v, hv⟩
    rw [he] at hv
    exact Sum.noConfusion hv

theorem arcK_try_unwrap_spec_witness :
    Heap.find heapUnique handle0.inner = some ⟨5, 1⟩
    ∧ (((∃ v, (ArcK.try_unwrap heapUnique handle0).1 = Sum.inl v) ↔ (1 : Nat) = 1)
    ∧ ((1 : Nat) = 1 →
        ArcK.try_unwrap heapUnique handle0
          = (Sum.inl 5, heapUnique.remove handle0.inner)
        ∧ ArcK.deref heapUnique handle0 = some 5
        ∧ (ArcK.try_unwrap heapUnique handle0).2.find handle0.inner = none)
    ∧ ((1 : Nat) ≠ 1 → ArcK.try_unwrap heapUnique handle0 = (Sum.inr handle0, heapUnique))) :=
  ⟨by decide, arcK_try_unwrap_spec heapUnique handle0 ⟨5, 1⟩ (by decide)⟩

/-- C5: on a live shared handle (strong count > 1, fresh address
available), `make_mut` moves the handle to a fresh allocation whose strong
count is 1, whose payload equals the prior payload (the initial referent of
the returned borrow), while the original sharers' allocation still holds the
unchanged value. -/
theorem arcK_make_mut_shared_spec (h : Heap α) (k : ArcK) (c : Alloc α)
    (hlive : h.find k.inner = some c) (hshared : 1 < c.strong)
    (hfresh : k.inner ≠ h.next) :
    ArcK.strong_count (ArcK.make_mut h k).2 (ArcK.make_mut h k).1 = 1
    ∧ ArcK.deref (ArcK.make_mut h k).2 (ArcK.make_mut h k).1 = some c.value
    ∧ ArcK.deref (ArcK.make_mut h k).2 k = some c.value
    ∧ (ArcK.make_mut h k).1.inner ≠ k.inner := by
  have hs : ¬ c.strong = 1 := by omega
  have he : ArcK.make_mut h k =
      (⟨h.next⟩,
       ⟨(h.next, ⟨c.value, 1⟩) :: (h.modifyStrong k.inner (fun s => s - 1)).cells,
        h.next + 1⟩) := by
    simp [ArcK.make_mut, Arc.make_mut, ArcK.as_inner_mut, ArcK.new_from_inner, hlive, hs,
      Heap.modifyStrong_next]
  have hk : Heap.find
      (⟨(h.next, ⟨c.value, 1⟩) :: (h.modifyStrong k.inner (fun s => s - 1)).cells,
        h.next + 1⟩ : Heap α) k.inner = some ⟨c.value, c.strong - 1⟩ := by
    rw [Heap.find_cons_other _ _ _ _ _ hfresh]
    show (h.modifyStrong k.inner (fun s => s - 1)).find k.inner = _
    rw [Heap.find_modifyStrong_self, hlive]
    rfl
  refine ⟨?_, ?_, ?_, ?_⟩
  · rw [he]
    simp [ArcK.strong_count, Arc.strong_count, ArcK.as_inner_ref, Heap.find_cons_self]
  · rw [he]
    simp [ArcK.deref, Arc.deref, ArcK.as_inner_ref, Heap.find_cons_self]
  · rw [he]
    simp [ArcK.deref, Arc.deref, ArcK.as_inner_ref, hk]
  · rw [he]
    exact Ne.symm hfresh

theorem arcK_make_mut_shared_spec_witness :
    Heap.find heapShared handle0.inner = some ⟨5, 2⟩
    ∧ (1 : Nat) < 2
    ∧ handle0.inner ≠ heapShared.next
    ∧ (ArcK.strong_count (ArcK.make_mut heapShared handle0).2
          (ArcK.make_mut heapShared handle0).1 = 1
    ∧ ArcK.deref (ArcK.make_mut heapShared handle0).2
          (ArcK.make_mut heapShared handle0).1 = some 5
    ∧ ArcK.deref (ArcK.make_mut heapShared handle0).2 handle0 = some 5
    ∧ (ArcK.make_mut heapShared handle0).1.inner ≠ handle0.inner) :=
  ⟨by decide, by decide, by decide,
    arcK_make_mut_shared_spec heapShared handle0 ⟨5, 2⟩ (by decide) (by decide) (by decide)⟩

/-- C2 (amended): `ArcK` equality goes through `Arc<()>`'s `PartialEq`,
which compares the erased unit payloads (after a pointer fast path), so any
two handles compare equal — in particular it is reflexive, symmetric and
transitive and a handle equals its clone — but it does not track allocation
identity. -/
theorem arcK_eq_always_true (h : Heap α) (x y : ArcK) :
    ArcK.eq x y = true ∧ ArcK.eq x (ArcK.clone h x).1 = true := by
  constructor <;> simp [ArcK.eq, UntypedArc.deref]

/-- Two handles freshly constructed over distinct allocations, holding
distinct payloads. -/
def demoA : ArcK × Heap Nat := ArcK.new Heap.empty 0

/-- Second fresh construction, on the heap left by `demoA`. -/
def demoB : ArcK × Heap Nat := ArcK.new demoA.2 1

/-- C2 counterexample: two independently constructed handles live at
distinct raw addresses and dereference to distinct values, yet `ArcK`
equality declares them equal — so equality does not hold only for handles
of the identical allocation. -/
theorem arcK_eq_ignores_allocation :
    ArcK.eq demoA.1 demoB.1 = true
    ∧ demoA.1.inner ≠ demoB.1.inner
    ∧ ArcK.deref demoB.2 demoA.1 ≠ ArcK.deref demoB.2 demoB.1 := by
  decide

end Archery
